import Mathlib

/-!
Verification of the FeitCSI netlink / Wi-Fi controller core
(`src/Netlink.cpp`, `src/WiFIController.cpp`, `include/WiFIController.h`,
`src/MainController.cpp`) against its natural-language specification.

The C++ code is shallowly embedded: pure helpers become Lean functions,
the kernel exchange of `Netlink::nlExecCommand` becomes a fold over the
abstract stream of incoming netlink messages, and handlers that mutate
builders/directories become explicit state-passing functions.  Machine
integers are modelled as `Nat`/`Int` with explicit wrapping where the C
code can overflow or truncate.
-/

/-! ## Errno constants (Linux asm-generic values used by the sources) -/

def ENOENT : Int := 2
def ENOMEM : Int := 12
def ENOLINK : Int := 67
def EPROTO : Int := 71

/-! ## Channel modes (`WiFIController::getChanMode`, WiFIController.cpp:614-654)

`nl80211_chan_width` enumerator values from `<linux/nl80211.h>`, and
`nl80211_channel_type`: NO_HT=0, HT20=1, HT40MINUS=2, HT40PLUS=3. -/

def NL80211_CHAN_WIDTH_20_NOHT : Nat := 0
def NL80211_CHAN_WIDTH_20 : Nat := 1
def NL80211_CHAN_WIDTH_40 : Nat := 2
def NL80211_CHAN_WIDTH_80 : Nat := 3
def NL80211_CHAN_WIDTH_80P80 : Nat := 4
def NL80211_CHAN_WIDTH_160 : Nat := 5
def NL80211_CHAN_WIDTH_5 : Nat := 6
def NL80211_CHAN_WIDTH_10 : Nat := 7
def NL80211_CHAN_WIDTH_1 : Nat := 8
def NL80211_CHAN_WIDTH_2 : Nat := 9
def NL80211_CHAN_WIDTH_4 : Nat := 10
def NL80211_CHAN_WIDTH_8 : Nat := 11
def NL80211_CHAN_WIDTH_16 : Nat := 12
def NL80211_CHAN_WIDTH_320 : Nat := 13

/-- `struct ChanMode` (WiFIController.h:130-135). -/
structure ChanMode where
  name : String
  width : Nat
  freq1_diff : Int
  chantype : Int
deriving DecidableEq, Repr

/-- The fixed `chanMode[]` table inside `getChanMode` (WiFIController.cpp:615-642),
in source order. -/
def chanModeTable : List ChanMode :=
  [ ⟨"20", NL80211_CHAN_WIDTH_20, 0, 1⟩,
    ⟨"40", NL80211_CHAN_WIDTH_40, 10, 3⟩,
    ⟨"HT40-", NL80211_CHAN_WIDTH_40, -10, 2⟩,
    ⟨"NOHT", NL80211_CHAN_WIDTH_20_NOHT, 0, 0⟩,
    ⟨"5MHz", NL80211_CHAN_WIDTH_5, 0, -1⟩,
    ⟨"10MHz", NL80211_CHAN_WIDTH_10, 0, -1⟩,
    ⟨"80", NL80211_CHAN_WIDTH_80, 0, -1⟩,
    ⟨"160", NL80211_CHAN_WIDTH_160, 0, -1⟩,
    ⟨"320MHz", NL80211_CHAN_WIDTH_320, 0, -1⟩,
    ⟨"1MHz", NL80211_CHAN_WIDTH_1, 0, -1⟩,
    ⟨"2MHz", NL80211_CHAN_WIDTH_2, 0, -1⟩,
    ⟨"4MHz", NL80211_CHAN_WIDTH_4, 0, -1⟩,
    ⟨"8MHz", NL80211_CHAN_WIDTH_8, 0, -1⟩,
    ⟨"16MHz", NL80211_CHAN_WIDTH_16, 0, -1⟩ ]

/-- `struct ChanMode selectedChanMode = {};` — the zero-initialized mode
returned when no table entry matches (name pointer NULL, modelled as ""). -/
def zeroChanMode : ChanMode := ⟨"", 0, 0, 0⟩

/-- ASCII lower-casing of one byte, as `strcasecmp`/`tolower` do in the C
locale: only 'A'..'Z' change. -/
def asciiLower (c : Char) : Char :=
  if 'A' ≤ c ∧ c ≤ 'Z' then Char.ofNat (c.toNat + 32) else c

/-- `strcasecmp(a, b) == 0`: equality after ASCII lower-casing. -/
def strcaseeq (a b : String) : Bool :=
  a.data.map asciiLower == b.data.map asciiLower

/-- `WiFIController::getChanMode` (WiFIController.cpp:614-654): first
case-insensitive match in the fixed table, else the zero mode. -/
def getChanMode (width : String) : ChanMode :=
  (chanModeTable.find? (fun cm => strcaseeq cm.name width)).getD zeroChanMode

/-! ## Center frequency (`WiFIController::getCf1`, WiFIController.cpp:656-707) -/

/-- `bw80[]` exactly as in the source (note the 19th entry is 6195, not 6915). -/
def bw80 : List Nat :=
  [5180, 5260, 5500, 5580, 5660, 5745, 5955, 6035, 6115, 6195,
   6275, 6355, 6435, 6515, 6595, 6675, 6755, 6835, 6195, 6995]

def bw160 : List Nat := [5180, 5500, 5955, 6115, 6275, 6435, 6595, 6755, 6915]

def bw320 : List Nat := [5955, 6115, 6275, 6435, 6595, 6755]

/-- Reinterpret an `unsigned int` value (a `Nat` below `2^32`) as a C `int`
(two's complement), as the `return cf1;` conversion does. -/
def uintAsInt32 (u : Nat) : Int :=
  if u < 2 ^ 31 then (u : Int) else (u : Int) - 2 ^ 32

/-- `WiFIController::getCf1`.  `freq` is `unsigned long` (modelled as `Nat`);
`cf1` is `unsigned int`, initialized to `freq` (truncated).  For widths
80/160/320 the first table segment containing `freq` is used — the match
window in the source is 80/160/160 MHz respectively (for 320 MHz the code
compares against `bw320[j] + 160`).  With no match `cf1` keeps its initial
value `freq`; for every other width the generic `freq + freq1_diff` formula
applies (unsigned wrap-around modelled explicitly). -/
def getCf1 (chanmode : ChanMode) (freq : Nat) : Int :=
  let cf1 : Nat :=
    if chanmode.width = NL80211_CHAN_WIDTH_80 then
      match bw80.find? (fun s => decide (s ≤ freq) && decide (freq < s + 80)) with
      | some s => s + 30
      | none => freq % 2 ^ 32
    else if chanmode.width = NL80211_CHAN_WIDTH_160 then
      match bw160.find? (fun s => decide (s ≤ freq) && decide (freq < s + 160)) with
      | some s => s + 70
      | none => freq % 2 ^ 32
    else if chanmode.width = NL80211_CHAN_WIDTH_320 then
      match bw320.find? (fun s => decide (s ≤ freq) && decide (freq < s + 160)) with
      | some s => s + 150
      | none => freq % 2 ^ 32
    else ((Int.ofNat freq + chanmode.freq1_diff).emod (2 ^ 32)).toNat
  uintAsInt32 cf1

/-! ## Frequency → channel (`WiFIController::frequencyToChannel`,
WiFIController.cpp:764-786).  C `int` division truncates toward zero,
which is `Int.tdiv`. -/

def frequencyToChannel (freq : Int) : Int :=
  if freq < 1000 then 0
  else if freq = 2484 then 14
  else if freq = 5935 then 2
  else if freq < 2484 then Int.tdiv (freq - 2407) 5
  else if 4910 ≤ freq ∧ freq ≤ 4980 then Int.tdiv (freq - 4000) 5
  else if freq < 5950 then Int.tdiv (freq - 5000) 5
  else if freq ≤ 45000 then Int.tdiv (freq - 5950) 5
  else if 58320 ≤ freq ∧ freq ≤ 70200 then Int.tdiv (freq - 56160) 2160
  else 0

/-! ## MAC address text ↔ bytes (`WiFIController::mac_n2a` / `mac_a2n`,
WiFIController.cpp:709-762).  `ETH_ALEN` is 6. -/

/-- One lowercase hex digit, as `sprintf("%02x", ...)` produces. -/
def hexDigitChar (n : Nat) : Char :=
  if n < 10 then Char.ofNat (Char.toNat '0' + n) else Char.ofNat (Char.toNat 'a' + n - 10)

/-- The two hex digits of one byte (`%02x` for a value below 256). -/
def byteHex (b : Nat) : List Char := [hexDigitChar (b / 16), hexDigitChar (b % 16)]

/-- `WiFIController::mac_n2a`: first byte unprefixed, every later byte
prefixed by a colon. -/
def mac_n2a (bytes : List Nat) : String :=
  ⟨match bytes with
   | [] => []
   | b :: rest => byteHex b ++ rest.flatMap (fun x => ':' :: byteHex x)⟩

/-- The separator set skipped by `mac_a2n` (':', '-', space, tab). -/
def isSep (c : Char) : Bool := c == ':' || c == '-' || c == ' ' || c == '\t'

/-- The `hexval` lambda inside `mac_a2n` (`-1` becomes `none`). -/
def hexval (c : Char) : Option Nat :=
  if '0' ≤ c ∧ c ≤ '9' then some (c.toNat - Char.toNat '0')
  else if 'a' ≤ c ∧ c ≤ 'f' then some (10 + (c.toNat - Char.toNat 'a'))
  else if 'A' ≤ c ∧ c ≤ 'F' then some (10 + (c.toNat - Char.toNat 'A'))
  else none

/-- Parser state of `mac_a2n`: `hi` is the pending high nibble
(`int hi = -1` becomes `none`), `bytes` the bytes written to `out` so far. -/
structure A2nState where
  hi : Option Nat
  bytes : List Nat
deriving DecidableEq, Repr

/-- One loop iteration of `mac_a2n`; `none` is an early `return false`. -/
def a2nStep (st : A2nState) (c : Char) : Option A2nState :=
  if isSep c then some st
  else
    match hexval c with
    | none => none
    | some v =>
      match st.hi with
      | none => some ⟨some v, st.bytes⟩
      | some h =>
        if 6 ≤ st.bytes.length then none
        else some ⟨none, st.bytes ++ [h * 16 + v]⟩

/-- `WiFIController::mac_a2n`: run the loop over all characters; succeed
(returning the bytes written to `out`) iff no early failure, no pending
nibble, and exactly 6 bytes. -/
def mac_a2n (s : String) : Option (List Nat) :=
  match s.data.foldlM a2nStep ⟨none, []⟩ with
  | none => none
  | some st => if st.hi = none ∧ st.bytes.length = 6 then some st.bytes else none

/-- The action of the `mac_a2n` loop on hex digits only (separators already
skipped); used to reason about `a2nStep` folds. -/
def pushDigits : A2nState → List Nat → Option A2nState
  | st, [] => some st
  | st, d :: ds =>
    match st.hi with
    | none => pushDigits ⟨some d, st.bytes⟩ ds
    | some h =>
      if 6 ≤ st.bytes.length then none
      else pushDigits ⟨none, st.bytes ++ [h * 16 + d]⟩ ds

/-- The hex digits of a character list, dropping separators. -/
def macHexDigits (l : List Char) : List Nat :=
  l.filterMap (fun c => if isSep c then none else hexval c)

/-! ## Interface records and builders (WiFIController.h:36-128) -/

/-- `struct InterfaceInfo`, restricted to the fields the builder's `build()`
actually initializes (ssid/channel/width/center/type fields are never set
by the modelled code paths and are left out). -/
structure InterfaceInfo where
  ifName : String
  ifType : Nat
  ifIndex : Nat
  wiphy : Nat
  wdev : Nat
  mac : String
  freq : Nat
  txdBm : Int
deriving DecidableEq, Repr

/-- `InterfaceInfoBuilder`: every field optional, `none` = "not supplied". -/
structure InterfaceInfoBuilder where
  interfaceName : Option String := none
  interfaceType : Option Nat := none
  interfaceIndex : Option Nat := none
  phyIndex : Option Nat := none
  wdevIndex : Option Nat := none
  macAddress : Option String := none
  frequency : Option Nat := none
  txDbm : Option Int := none
deriving DecidableEq, Repr

/-- `InterfaceInfoBuilder::build` (WiFIController.h:105-117).  In the source
it returns `std::optional` but is always engaged; the defaults are the
`value_or` fallbacks (`NL80211_IFTYPE_UNSPECIFIED` = 0). -/
def InterfaceInfoBuilder.build (b : InterfaceInfoBuilder) : InterfaceInfo :=
  { ifName := b.interfaceName.getD ("Unnamed/non-netdev interface")
    ifType := b.interfaceType.getD 0
    ifIndex := b.interfaceIndex.getD 0
    wiphy := b.phyIndex.getD 0
    wdev := b.wdevIndex.getD 0
    mac := b.macAddress.getD ("")
    freq := b.frequency.getD 0
    txdBm := b.txDbm.getD 0 }

/-- The parsed attribute table of one `GET_INTERFACE` reply, i.e. which
nl80211 attributes the message carried (`none` = attribute absent). -/
structure GetIfaceReply where
  ifname : Option String := none
  iftype : Option Nat := none
  ifindex : Option Nat := none
  wiphy : Option Nat := none
  wdev : Option Nat := none
  macBytes : Option (List Nat) := none
  wiphyFreq : Option Nat := none
  txPowerLevel : Option Nat := none
deriving DecidableEq, Repr

/-- The builder populated by `WiFIController::getInterfaceInfoHandler`
(WiFIController.cpp:149-206) from one reply's attributes: MAC bytes are
rendered with `mac_n2a`, the tx-power attribute is read as u32 and divided
by 100 (truncating Nat division). -/
def builderOfReply (r : GetIfaceReply) : InterfaceInfoBuilder :=
  { interfaceName := r.ifname
    interfaceType := r.iftype
    interfaceIndex := r.ifindex
    phyIndex := r.wiphy
    wdevIndex := r.wdev
    macAddress := r.macBytes.map mac_n2a
    frequency := r.wiphyFreq
    txDbm := r.txPowerLevel.map (fun lvl => (Int.ofNat (lvl / 100))) }

/-- `WiFIController::getInterfaceInfoHandler`'s effect on the output
collection: the builder is pushed onto `builders` iff the reply carried
`NL80211_ATTR_IFINDEX` (WiFIController.cpp:200-203). -/
def getInterfaceInfoHandler (r : GetIfaceReply) (builders : List InterfaceInfoBuilder) :
    List InterfaceInfoBuilder :=
  match r.ifindex with
  | some _ => builders ++ [builderOfReply r]
  | none => builders

/-- `WiFIController::getInterfaceInfoTxPowerHandler` over one `GET_WIPHY`
dump: `txOracle idx` is the first `NL80211_ATTR_WIPHY_TX_POWER_LEVEL`
attribute (a signed s32 in hundredths of dBm) found in the dump for
interface `idx`, if any; the builder's tx power becomes that value divided
by 100 with C truncation (WiFIController.cpp:208-231). -/
def applyTxQuery (txOracle : Nat → Option Int) (b : InterfaceInfoBuilder) :
    InterfaceInfoBuilder :=
  match b.interfaceIndex with
  | none => b
  | some idx =>
    match txOracle idx with
    | none => b
    | some mbm => { b with txDbm := some (Int.tdiv mbm 100) }

/-! ## Interface directory (`WiFIController::interfaces`,
an `unordered_map<string, InterfaceInfo>` modelled as an association list) -/

/-- `map[k] = v`: overwrite the entry for `k` or append a new one. -/
def insertDir : List (String × InterfaceInfo) → String → InterfaceInfo →
    List (String × InterfaceInfo)
  | [], k, v => [(k, v)]
  | (k0, v0) :: rest, k, v =>
    if k0 = k then (k, v) :: rest else (k0, v0) :: insertDir rest k v

/-- `map.find(k)` as an association-list lookup. -/
def lookupDir (d : List (String × InterfaceInfo)) (k : String) : Option InterfaceInfo :=
  (d.find? (fun kv => kv.1 = k)).map (fun kv => kv.2)

/-- The records finalized by one interface enumeration: fold the
`GET_INTERFACE` replies through the handler, then give each builder its
`GET_WIPHY` tx power and build it. -/
def producedRecords (replies : List GetIfaceReply) (txOracle : Nat → Option Int) :
    List InterfaceInfo :=
  ((replies.foldl (fun bs r => getInterfaceInfoHandler r bs) []).map
    (fun b => (applyTxQuery txOracle b).build))

/-- `WiFIController::getAllInterfaces` (WiFIController.cpp:40-77): every
finalized record is stored under its name (`interfaces[info.ifName] = info`).
The per-builder tx-power queries do not touch the directory, so the loop's
effect on it is this fold of inserts. -/
def getAllInterfaces (replies : List GetIfaceReply) (txOracle : Nat → Option Int)
    (dir : List (String × InterfaceInfo)) : List (String × InterfaceInfo) :=
  (producedRecords replies txOracle).foldl (fun d info => insertDir d info.ifName info) dir

/-- `WiFIController::getInterfaceInfo(const std::string)`
(WiFIController.cpp:79-126): no builder → `nullopt`, directory untouched;
otherwise the first builder is completed, built and stored under its name. -/
def getInterfaceInfoByName (replies : List GetIfaceReply) (txOracle : Nat → Option Int)
    (dir : List (String × InterfaceInfo)) :
    Option InterfaceInfo × List (String × InterfaceInfo) :=
  match replies.foldl (fun bs r => getInterfaceInfoHandler r bs) [] with
  | [] => (none, dir)
  | b :: _ =>
    let info := (applyTxQuery txOracle b).build
    (some info, insertDir dir info.ifName info)

/-- `WiFIController::getInterfaceInfo(uint32_t)` (WiFIController.cpp:128-147).
The command's `valid_handler_args` field is left unset (null), so the
handler's output vector pointer is null: processing any data reply that
carries an ifindex attribute would `push_back` through a null pointer
(modelled as a fatal `Except.error`).  Otherwise the function only searches
the existing `interfaces` map for a matching index — it never writes to it. -/
def getInterfaceInfoByIndex (replies : List GetIfaceReply) (interfaceIndex : Nat)
    (dir : List (String × InterfaceInfo)) :
    Except String (Option InterfaceInfo × List (String × InterfaceInfo)) :=
  if replies.any (fun r => r.ifindex.isSome) then
    Except.error ("null builder vector dereference in getInterfaceInfoHandler")
  else
    Except.ok ((dir.find? (fun kv => kv.2.ifIndex = interfaceIndex)).map (fun kv => kv.2), dir)

/-- `MainController::restoreState` (MainController.cpp:481-514) ends with
`wifiController.interfaces.clear()`; the destructor calls `restoreState()`. -/
def restoreStateInterfaces (dir : List (String × InterfaceInfo)) :
    List (String × InterfaceInfo) :=
  (fun _ => []) dir

/-! ## TX power command (`WiFIController::setInterfaceTxPower` overloads,
WiFIController.cpp:246-300) -/

/-- nl80211 attribute identifiers used by `setTxPowerHandler`. -/
inductive NlAttrId where
  | wiphyTxPowerSetting
  | wiphyTxPowerLevel
deriving DecidableEq, Repr

/-- `NL80211_TX_POWER_FIXED` (enum `nl80211_tx_power_setting`: auto=0,
limited=1, fixed=2). -/
def NL80211_TX_POWER_FIXED : Int := 2

/-- Wrap a mathematical integer to a signed 32-bit value (C `int32_t`
two's-complement arithmetic). -/
def wrap32 (x : Int) : Int := (x + 2 ^ 31) % 2 ^ 32 - 2 ^ 31

/-- `WiFIController::setTxPowerHandler` (WiFIController.cpp:289-300):
appends the fixed-power-setting attribute and the power level in hundredths
of dBm (`power_dbm * 100` as `int32_t`) to the outgoing message. -/
def setTxPowerHandler (power_dbm : Int) (msg : List (NlAttrId × Int)) :
    List (NlAttrId × Int) :=
  msg ++ [(NlAttrId.wiphyTxPowerSetting, NL80211_TX_POWER_FIXED),
          (NlAttrId.wiphyTxPowerLevel, wrap32 (power_dbm * 100))]

/-- `WiFIController::setInterfaceTxPower(const std::string, int32_t)`
(WiFIController.cpp:246-269).  `kernelResult` is the ignored return of
`nlExecCommand`; `requery` is what the follow-up `getInterfaceInfo(name)`
returned.  No record → -1; otherwise 0 iff the re-queried txdBm equals the
requested power, else -1. -/
def setInterfaceTxPowerByName (kernelResult : Int) (requery : Option InterfaceInfo)
    (power_dbm : Int) : Int :=
  match kernelResult, requery with
  | _, none => -1
  | _, some info => if power_dbm = info.txdBm then 0 else -1

/-- `WiFIController::setInterfaceTxPower(uint32_t, int32_t)`
(WiFIController.cpp:271-287): the verification line calls
`getInterfaceInfo(interfaceIndex).value()` with no `has_value` check, so an
absent re-query result raises `std::bad_optional_access` (modelled as
`Except.error`); `kernelResult` (the `nlExecCommand` return) is ignored. -/
def setInterfaceTxPowerByIndex (kernelResult : Int) (requery : Option InterfaceInfo)
    (power_dbm : Int) : Except String Int :=
  match kernelResult, requery with
  | _, none => Except.error ("bad optional access")
  | _, some info => Except.ok (if power_dbm = info.txdBm then 0 else -1)

/-! ## Netlink session setup (`Netlink::nlInit`, Netlink.cpp:39-99) -/

/-- `struct nl80211_state`: socket pointers modelled as "non-null" flags. -/
structure Nl80211StateM where
  gnlSocket : Bool
  rnlSocket : Bool
  nl80211Id : Int
deriving DecidableEq, Repr

/-- Outcomes of the primitive libnl calls `nlInit` makes, in order:
generic-socket allocation, `genl_connect`, `genl_ctrl_resolve("nl80211")`,
route-socket allocation, `nl_connect(NETLINK_ROUTE)`. -/
structure NlInitEnv where
  gnlAllocOk : Bool
  genlConnectOk : Bool
  nl80211Resolved : Int
  rnlAllocOk : Bool
  rnlConnectRes : Int
deriving DecidableEq, Repr

/-- `Netlink::nlInit` (Netlink.cpp:39-99).  Note the cleanup labels: the
route-connect failure path frees the route socket and then FALLS THROUGH to
`out_handle_destroy_generic`, freeing (and nulling) the generic socket as
well; a route-allocation failure throws `std::ios_base::failure`
(`Except.error`). -/
def nlInit (env : NlInitEnv) (st : Nl80211StateM) : Except String (Int × Nl80211StateM) :=
  let st1 := { st with gnlSocket := env.gnlAllocOk }
  if ¬ env.gnlAllocOk then
    Except.ok (-ENOMEM, { st1 with gnlSocket := false })
  else if ¬ env.genlConnectOk then
    Except.ok (-ENOLINK, { st1 with gnlSocket := false })
  else
    let st2 := { st1 with nl80211Id := env.nl80211Resolved }
    if env.nl80211Resolved < 0 then
      Except.ok (-ENOENT, { st2 with gnlSocket := false })
    else
      let st3 := { st2 with rnlSocket := env.rnlAllocOk }
      if ¬ env.rnlAllocOk then
        Except.error ("Failed to allocate route socket.")
      else if env.rnlConnectRes < 0 then
        Except.ok (-ENOLINK, { st3 with rnlSocket := false, gnlSocket := false })
      else
        Except.ok (0, st3)

/-! ## Command execution receive loop (`Netlink::nlExecCommand`,
Netlink.cpp:106-221, with the callbacks at Netlink.cpp:224-285)

The kernel's response stream is a list of batches, one batch per
`nl_recvmsgs` call.  A message is either a data message, a `NLMSG_DONE`
finish marker, or a `NLMSG_ERROR` whose code 0 is an ack.  The exchange
status `rctx.err` starts at 1 ("in progress"). -/

inductive NlMsg where
  | data : NlMsg
  | finish : NlMsg
  | kerror : Int → NlMsg
deriving DecidableEq, Repr

/-- `Netlink::error_handler` (Netlink.cpp:224-232): an illegal positive
kernel code is coerced to `-EPROTO`, otherwise the code is kept as is. -/
def coerceKernelCode (e : Int) : Int := if 0 < e then -EPROTO else e

/-- One `nl_recvmsgs` call over one batch of messages.  Returns the updated
`rctx.err` and the `nl_recvmsgs` return value.  Data messages only reach the
side-effecting valid handler; a finish marker sets the status to 0 and skips
on (`NL_SKIP`); an ack (error code 0) sets the status to 0 and stops the
batch when the ack handler is registered (non-dump) and is ignored
otherwise; a real error message stores the coerced code and makes
`nl_recvmsgs` return a negative libnl error (`NL_STOP` from the error
callback). -/
def processBatch (isDump : Bool) : Int → List NlMsg → Int × Int
  | st, [] => (st, 0)
  | st, NlMsg.data :: rest => processBatch isDump st rest
  | _, NlMsg.finish :: rest => processBatch isDump 0 rest
  | st, NlMsg.kerror e :: rest =>
    if e = 0 then cond isDump (processBatch isDump st rest) (0, 0)
    else (coerceKernelCode e, -16)

/-- The `while (rctx.err > 0) { err = nl_recvmsgs(...); if (err < 0) break; }`
loop.  Running out of batches while still "in progress" means the real code
would block forever in `nl_recvmsgs` (`none`). -/
def execLoop (isDump : Bool) : Int → Int → List (List NlMsg) → Option (Int × Int)
  | st, lastRes, [] => if 0 < st then none else some (st, lastRes)
  | st, lastRes, b :: bs =>
    if 0 < st then
      let p := processBatch isDump st b
      if p.2 < 0 then some p else execLoop isDump p.1 p.2 bs
    else some (st, lastRes)

/-- The receive phase and return value of `Netlink::nlExecCommand`
(Netlink.cpp:182-214): a negative `rctx.err` (kernel errno) is returned as
is, else a negative `nl_recvmsgs` result, else 0. -/
def nlExecCommand (isDump : Bool) (batches : List (List NlMsg)) : Option Int :=
  match execLoop isDump 1 1 batches with
  | none => none
  | some (st, res) => some (if st < 0 then st else if res < 0 then res else 0)

/-- The messages of one batch actually dispatched to callbacks (an error
message, or an ack in non-dump mode, ends the batch). -/
def batchTrace (isDump : Bool) : List NlMsg → List NlMsg
  | [] => []
  | NlMsg.data :: rest => NlMsg.data :: batchTrace isDump rest
  | NlMsg.finish :: rest => NlMsg.finish :: batchTrace isDump rest
  | NlMsg.kerror e :: rest =>
    if e = 0 then cond isDump (NlMsg.kerror 0 :: batchTrace isDump rest) [NlMsg.kerror 0]
    else [NlMsg.kerror e]

/-- All messages dispatched during the whole receive loop. -/
def execTrace (isDump : Bool) : Int → List (List NlMsg) → List NlMsg
  | _, [] => []
  | st, b :: bs =>
    if 0 < st then
      batchTrace isDump b ++
        (if (processBatch isDump st b).2 < 0 then []
         else execTrace isDump (processBatch isDump st b).1 bs)
    else []

/-! # Theorems -/

/-! ## Generic first-match lemma for `List.find?` -/

theorem find_first_of_unique {α : Type} (p : α → Bool) (l : List α) (x : α)
    (hx : x ∈ l) (hpx : p x = true) (huniq : ∀ y ∈ l, p y = true → y = x) :
    l.find? p = some x := by
  induction l with
  | nil => cases hx
  | cons a t ih =>
    by_cases hpa : p a = true
    · have hax : a = x := huniq a (List.mem_cons_self a t) hpa
      subst hax
      simp [List.find?, hpx]
    · have hpa' : p a = false := by
        cases h : p a with
        | false => rfl
        | true => exact absurd h hpa
      have hxt : x ∈ t := by
        rcases List.mem_cons.mp hx with h | h
        · exact absurd (h ▸ hpx) (by simpa [h] using hpa)
        · exact h
      simp only [List.find?, hpa']
      exact ih hxt fun y hy hpy => huniq y (List.mem_cons_of_mem a hy) hpy

/-! ## C5: frequencyToChannel -/

set_option maxHeartbeats 1600000 in
/-- **C5.** `frequencyToChannel` performs the band-specific conversion:
below 1000 MHz → 0; 2484 → 14; 5935 → 2; below 2484 → (freq-2407)/5;
4910–4980 → (freq-4000)/5; below 5950 → (freq-5000)/5; up to 45000 →
(freq-5950)/5; 58320–70200 → (freq-56160)/2160; otherwise 0 (divisions
truncate toward zero, and each branch applies after the earlier guards). -/
theorem frequencyToChannel_spec (freq : Int) :
    (freq < 1000 → frequencyToChannel freq = 0) ∧
    (frequencyToChannel 2484 = 14) ∧
    (frequencyToChannel 5935 = 2) ∧
    (1000 ≤ freq → freq < 2484 → frequencyToChannel freq = Int.tdiv (freq - 2407) 5) ∧
    (4910 ≤ freq → freq ≤ 4980 → frequencyToChannel freq = Int.tdiv (freq - 4000) 5) ∧
    (2484 < freq → freq ≠ 5935 → ¬(4910 ≤ freq ∧ freq ≤ 4980) → freq < 5950 →
      frequencyToChannel freq = Int.tdiv (freq - 5000) 5) ∧
    (5950 ≤ freq → freq ≤ 45000 → frequencyToChannel freq = Int.tdiv (freq - 5950) 5) ∧
    (58320 ≤ freq → freq ≤ 70200 → frequencyToChannel freq = Int.tdiv (freq - 56160) 2160) ∧
    (45000 < freq → freq < 58320 → frequencyToChannel freq = 0) ∧
    (70200 < freq → frequencyToChannel freq = 0) := by
  refine ⟨?_, ?_, ?_, ?_, ?_, ?_, ?_, ?_, ?_, ?_⟩
  all_goals intros
  all_goals simp only [frequencyToChannel]
  all_goals split_ifs <;> first | rfl | omega

/-- Witness for C5 at a concrete input: 2412 MHz is channel (2412-2407)/5 = 1. -/
theorem frequencyToChannel_spec_witness :
    frequencyToChannel 2412 = Int.tdiv (2412 - 2407) 5 :=
  (frequencyToChannel_spec 2412).2.2.2.1 (by decide) (by decide)

/-! ## C4: getChanMode -/

/-- The table's names are pairwise distinct even case-insensitively. -/
theorem chanModeTable_names_unique :
    ∀ a ∈ chanModeTable, ∀ b ∈ chanModeTable,
      strcaseeq a.name b.name = true → a = b := by decide

/-- **C4.** `getChanMode` is total; any label equal to a table entry's name
up to ASCII letter case yields that entry, and any label matching no entry
yields the zero-valued mode, whose width is 0. -/
theorem getChanMode_spec :
    (∀ cm ∈ chanModeTable, ∀ s : String,
        strcaseeq cm.name s = true → getChanMode s = cm) ∧
    (∀ s : String,
        (∀ cm ∈ chanModeTable, strcaseeq cm.name s = false) →
        getChanMode s = zeroChanMode) ∧
    zeroChanMode.width = 0 := by
  refine ⟨?_, ?_, rfl⟩
  · intro cm hcm s hs
    have hfind : chanModeTable.find? (fun c => strcaseeq c.name s) = some cm := by
      apply find_first_of_unique _ _ _ hcm hs
      intro y hy hpy
      apply chanModeTable_names_unique y hy cm hcm
      have h1 : y.name.data.map asciiLower = s.data.map asciiLower := by
        simpa [strcaseeq] using hpy
      have h2 : cm.name.data.map asciiLower = s.data.map asciiLower := by
        simpa [strcaseeq] using hs
      simp [strcaseeq, h1, h2]
    simp [getChanMode, hfind]
  · intro s hnone
    have hfind : chanModeTable.find? (fun c => strcaseeq c.name s) = none := by
      rw [List.find?_eq_none]
      intro cm hcm
      simp [hnone cm hcm]
    simp [getChanMode, hfind]

/-- Witness for C4: "ht40-" resolves case-insensitively to the HT40- entry. -/
theorem getChanMode_spec_witness :
    getChanMode "ht40-" = ⟨"HT40-", NL80211_CHAN_WIDTH_40, -10, 2⟩ :=
  getChanMode_spec.1 ⟨"HT40-", NL80211_CHAN_WIDTH_40, -10, 2⟩ (by decide) "ht40-" (by decide)

/-! ## C2: getCf1 -/

/-- Two `bw80` entries are equal or at least 80 MHz apart (the table's two
6195 entries coincide), so at most one 80 MHz window can contain a
frequency. -/
theorem bw80_disjoint : ∀ a ∈ bw80, ∀ b ∈ bw80, b = a ∨ a + 80 ≤ b ∨ b + 80 ≤ a := by
  decide

theorem bw160_disjoint : ∀ a ∈ bw160, ∀ b ∈ bw160, b = a ∨ a + 160 ≤ b ∨ b + 160 ≤ a := by
  decide

theorem bw320_disjoint : ∀ a ∈ bw320, ∀ b ∈ bw320, b = a ∨ a + 160 ≤ b ∨ b + 160 ≤ a := by
  decide

theorem bw80_le : ∀ s ∈ bw80, s ≤ 6995 := by decide

theorem bw160_le : ∀ s ∈ bw160, s ≤ 6915 := by decide

theorem bw320_le : ∀ s ∈ bw320, s ≤ 6755 := by decide

/-- The `for`/`break` search of `getCf1` returns the unique window
containing `freq` when the windows are pairwise disjoint. -/
theorem findSeg_eq_some (tbl : List Nat) (w freq s : Nat) (hs : s ∈ tbl)
    (h1 : s ≤ freq) (h2 : freq < s + w)
    (hdis : ∀ a ∈ tbl, ∀ b ∈ tbl, b = a ∨ a + w ≤ b ∨ b + w ≤ a) :
    tbl.find? (fun t => decide (t ≤ freq) && decide (freq < t + w)) = some s := by
  apply find_first_of_unique _ _ _ hs (by simp [h1, h2])
  intro y hy hpy
  have h3 : y ≤ freq ∧ freq < y + w := by simpa using hpy
  rcases hdis s hs y hy with h | h | h
  · exact h
  · omega
  · omega

theorem uintAsInt32_small (u : Nat) (h : u < 2 ^ 31) : uintAsInt32 u = (u : Int) := by
  unfold uintAsInt32
  rw [if_pos h]

/-- Branch reductions of `getCf1` by channel width. -/
theorem getCf1_width80 (cm : ChanMode) (hw : cm.width = NL80211_CHAN_WIDTH_80) (freq : Nat) :
    getCf1 cm freq =
      uintAsInt32
        (match bw80.find? (fun s => decide (s ≤ freq) && decide (freq < s + 80)) with
         | some s => s + 30
         | none => freq % 2 ^ 32) := by
  simp only [getCf1, hw]
  simp [NL80211_CHAN_WIDTH_80, NL80211_CHAN_WIDTH_160, NL80211_CHAN_WIDTH_320]

theorem getCf1_width160 (cm : ChanMode) (hw : cm.width = NL80211_CHAN_WIDTH_160) (freq : Nat) :
    getCf1 cm freq =
      uintAsInt32
        (match bw160.find? (fun s => decide (s ≤ freq) && decide (freq < s + 160)) with
         | some s => s + 70
         | none => freq % 2 ^ 32) := by
  simp only [getCf1, hw]
  simp [NL80211_CHAN_WIDTH_80, NL80211_CHAN_WIDTH_160, NL80211_CHAN_WIDTH_320]

theorem getCf1_width320 (cm : ChanMode) (hw : cm.width = NL80211_CHAN_WIDTH_320) (freq : Nat) :
    getCf1 cm freq =
      uintAsInt32
        (match bw320.find? (fun s => decide (s ≤ freq) && decide (freq < s + 160)) with
         | some s => s + 150
         | none => freq % 2 ^ 32) := by
  simp only [getCf1, hw]
  simp [NL80211_CHAN_WIDTH_80, NL80211_CHAN_WIDTH_160, NL80211_CHAN_WIDTH_320]

theorem getCf1_generic (cm : ChanMode)
    (hw80 : cm.width ≠ NL80211_CHAN_WIDTH_80) (hw160 : cm.width ≠ NL80211_CHAN_WIDTH_160)
    (hw320 : cm.width ≠ NL80211_CHAN_WIDTH_320) (freq : Nat) :
    getCf1 cm freq = uintAsInt32 (((freq : Int) + cm.freq1_diff).emod (2 ^ 32)).toNat := by
  simp only [getCf1]
  rw [if_neg hw80, if_neg hw160, if_neg hw320]
  rfl

/-- **C2 (counterexample).**  The claim reads the 320 MHz table segments as
spanning their full 320 MHz width, but `getCf1` matches only
`freq < bw320[j] + 160`.  6920 MHz lies inside the full-width segment
starting at 6755, yet `getCf1` falls through and returns 6920 instead of
6755 + 150 = 6905. -/
theorem getCf1_320_fullwidth_counterexample :
    (6755 ∈ bw320 ∧ 6755 ≤ 6920 ∧ 6920 < 6755 + 320) ∧
    getCf1 (getChanMode "320MHz") 6920 = 6920 ∧
    getCf1 (getChanMode "320MHz") 6920 ≠ ((6755 + 150 : Nat) : Int) := by
  decide

/-- **C2 (amended).**  For a resolved mode of width 80/160/320 MHz, if
`freq` lies in a table window — spanning 80/160 MHz for the 80/160 tables
but only the FIRST 160 MHz of a 320 MHz segment — `getCf1` returns the
window start plus 30/70/150; if `freq` lies in no window of that width it
returns `freq + freq1_diff` (the resolved modes have `freq1_diff = 0`); and
for every mode of any other width it returns the generic
`freq + freq1_diff`. -/
theorem getCf1_spec (freq : Nat) :
    (∀ s, s ∈ bw80 → s ≤ freq → freq < s + 80 →
      getCf1 (getChanMode "80") freq = ((s + 30 : Nat) : Int)) ∧
    (∀ s, s ∈ bw160 → s ≤ freq → freq < s + 160 →
      getCf1 (getChanMode "160") freq = ((s + 70 : Nat) : Int)) ∧
    (∀ s, s ∈ bw320 → s ≤ freq → freq < s + 160 →
      getCf1 (getChanMode "320MHz") freq = ((s + 150 : Nat) : Int)) ∧
    (freq < 2 ^ 31 →
      ((∀ s ∈ bw80, ¬(s ≤ freq ∧ freq < s + 80)) →
        getCf1 (getChanMode "80") freq = (freq : Int) + (getChanMode "80").freq1_diff) ∧
      ((∀ s ∈ bw160, ¬(s ≤ freq ∧ freq < s + 160)) →
        getCf1 (getChanMode "160") freq = (freq : Int) + (getChanMode "160").freq1_diff) ∧
      ((∀ s ∈ bw320, ¬(s ≤ freq ∧ freq < s + 160)) →
        getCf1 (getChanMode "320MHz") freq =
          (freq : Int) + (getChanMode "320MHz").freq1_diff)) ∧
    (∀ cm : ChanMode,
      cm.width ≠ NL80211_CHAN_WIDTH_80 → cm.width ≠ NL80211_CHAN_WIDTH_160 →
      cm.width ≠ NL80211_CHAN_WIDTH_320 →
      0 ≤ (freq : Int) + cm.freq1_diff → (freq : Int) + cm.freq1_diff < 2 ^ 31 →
      getCf1 cm freq = (freq : Int) + cm.freq1_diff) := by
  have h80 : getChanMode "80" = ⟨"80", NL80211_CHAN_WIDTH_80, 0, -1⟩ := by decide
  have h160 : getChanMode "160" = ⟨"160", NL80211_CHAN_WIDTH_160, 0, -1⟩ := by decide
  have h320 : getChanMode "320MHz" = ⟨"320MHz", NL80211_CHAN_WIDTH_320, 0, -1⟩ := by decide
  refine ⟨?_, ?_, ?_, fun hsmall => ⟨?_, ?_, ?_⟩, ?_⟩
  · intro s hs h1 h2
    rw [getCf1_width80 (getChanMode "80") (by rw [h80]) freq,
      findSeg_eq_some bw80 80 freq s hs h1 h2 bw80_disjoint]
    exact uintAsInt32_small (s + 30) (by have := bw80_le s hs; omega)
  · intro s hs h1 h2
    rw [getCf1_width160 (getChanMode "160") (by rw [h160]) freq,
      findSeg_eq_some bw160 160 freq s hs h1 h2 bw160_disjoint]
    exact uintAsInt32_small (s + 70) (by have := bw160_le s hs; omega)
  · intro s hs h1 h2
    rw [getCf1_width320 (getChanMode "320MHz") (by rw [h320]) freq,
      findSeg_eq_some bw320 160 freq s hs h1 h2 bw320_disjoint]
    exact uintAsInt32_small (s + 150) (by have := bw320_le s hs; omega)
  · intro hnone
    have hfind : bw80.find? (fun t => decide (t ≤ freq) && decide (freq < t + 80)) = none := by
      rw [List.find?_eq_none]
      intro t ht
      have := hnone t ht
      simp only [Bool.and_eq_true, decide_eq_true_eq]
      omega
    rw [getCf1_width80 (getChanMode "80") (by rw [h80]) freq, hfind, h80]
    show uintAsInt32 (freq % 2 ^ 32) = (freq : Int) + 0
    rw [Nat.mod_eq_of_lt (by omega), uintAsInt32_small freq (by omega)]
    omega
  · intro hnone
    have hfind : bw160.find? (fun t => decide (t ≤ freq) && decide (freq < t + 160)) = none := by
      rw [List.find?_eq_none]
      intro t ht
      have := hnone t ht
      simp only [Bool.and_eq_true, decide_eq_true_eq]
      omega
    rw [getCf1_width160 (getChanMode "160") (by rw [h160]) freq, hfind, h160]
    show uintAsInt32 (freq % 2 ^ 32) = (freq : Int) + 0
    rw [Nat.mod_eq_of_lt (by omega), uintAsInt32_small freq (by omega)]
    omega
  · intro hnone
    have hfind : bw320.find? (fun t => decide (t ≤ freq) && decide (freq < t + 160)) = none := by
      rw [List.find?_eq_none]
      intro t ht
      have := hnone t ht
      simp only [Bool.and_eq_true, decide_eq_true_eq]
      omega
    rw [getCf1_width320 (getChanMode "320MHz") (by rw [h320]) freq, hfind, h320]
    show uintAsInt32 (freq % 2 ^ 32) = (freq : Int) + 0
    rw [Nat.mod_eq_of_lt (by omega), uintAsInt32_small freq (by omega)]
    omega
  · intro cm hw80 hw160 hw320 hge hlt
    rw [getCf1_generic cm hw80 hw160 hw320 freq]
    have hemod : ((freq : Int) + cm.freq1_diff).emod (2 ^ 32) = (freq : Int) + cm.freq1_diff :=
      Int.emod_eq_of_lt hge (by omega)
    rw [hemod, uintAsInt32_small _ (by omega), Int.toNat_of_nonneg hge]

/-- Witness for the amended C2 theorem: 5180 MHz with mode "80" sits in the
window starting at 5180 and gets center frequency 5210. -/
theorem getCf1_spec_witness :
    getCf1 (getChanMode "80") 5180 = ((5180 + 30 : Nat) : Int) :=
  (getCf1_spec 5180).1 5180 (by decide) (by decide) (by decide)

/-! ## C3: nlInit route-socket failure -/

/-- **C3 (counterexample).**  With every generic-netlink step succeeding
(family id 25) and the route-netlink connect failing, `nlInit` returns
`-ENOLINK` with BOTH socket handles freed and nulled — the cleanup label
falls through from `out_handle_destroy_route` to
`out_handle_destroy_generic` — refuting "only the route socket is released
and the generic socket state is left intact". -/
theorem nlInit_route_failure_counterexample :
    nlInit ⟨true, true, 25, true, -7⟩ ⟨false, false, 0⟩ =
      Except.ok (-ENOLINK, ⟨false, false, 25⟩) ∧
    ¬ (∃ p : Int × Nl80211StateM,
        nlInit ⟨true, true, 25, true, -7⟩ ⟨false, false, 0⟩ = Except.ok p ∧
        p.2.gnlSocket = true) := by
  have hval : nlInit ⟨true, true, 25, true, -7⟩ ⟨false, false, 0⟩ =
      Except.ok (-ENOLINK, ⟨false, false, 25⟩) := rfl
  refine ⟨hval, ?_⟩
  rintro ⟨p, hp, hg⟩
  rw [hval] at hp
  injection hp with h
  rw [← h] at hg
  exact absurd hg (by decide)

/-- **C3 (amended).**  After the generic socket is allocated, connected and
resolved: a route-socket CONNECT failure returns `-ENOLINK` having released
both the route and (by cleanup fallthrough) the generic socket, only the
resolved nl80211 family id surviving in the state; a route-socket
ALLOCATION failure throws `std::ios_base::failure` instead of returning. -/
theorem nlInit_route_failure_spec (env : NlInitEnv) (st : Nl80211StateM)
    (hga : env.gnlAllocOk = true) (hgc : env.genlConnectOk = true)
    (hres : 0 ≤ env.nl80211Resolved) :
    (env.rnlAllocOk = true → env.rnlConnectRes < 0 →
      nlInit env st = Except.ok (-ENOLINK, ⟨false, false, env.nl80211Resolved⟩)) ∧
    (env.rnlAllocOk = false →
      nlInit env st = Except.error ("Failed to allocate route socket.")) := by
  obtain ⟨g, r, i⟩ := st
  constructor
  · intro hra hrc
    simp [nlInit, hga, hgc, hra, hrc, show ¬ env.nl80211Resolved < 0 by omega]
  · intro hra
    simp [nlInit, hga, hgc, hra, show ¬ env.nl80211Resolved < 0 by omega]

/-- Witness for the amended C3 theorem at a concrete environment. -/
theorem nlInit_route_failure_spec_witness :
    nlInit ⟨true, true, 25, true, -7⟩ ⟨true, true, 0⟩ =
      Except.ok (-ENOLINK, ⟨false, false, 25⟩) :=
  (nlInit_route_failure_spec ⟨true, true, 25, true, -7⟩ ⟨true, true, 0⟩ rfl rfl
    (by decide)).1 rfl (by decide)

/-! ## C7: setInterfaceTxPower (by name) -/

/-- **C7.**  `setTxPowerHandler` appends the fixed-power-setting attribute
and a power-level attribute of `p * 100` (hundredths of dBm, whenever
representable in `int32_t`), and `setInterfaceTxPower(name, p)` returns 0
exactly when the re-queried record exists and reports `txdBm = p`,
otherwise -1 — regardless of the ignored kernel command result. -/
theorem setInterfaceTxPower_verification (p : Int) (requery : Option InterfaceInfo)
    (kres : Int) (msg : List (NlAttrId × Int))
    (hlo : -(2 ^ 31) ≤ p * 100) (hhi : p * 100 < 2 ^ 31) :
    setTxPowerHandler p msg =
      msg ++ [(NlAttrId.wiphyTxPowerSetting, NL80211_TX_POWER_FIXED),
              (NlAttrId.wiphyTxPowerLevel, p * 100)] ∧
    (setInterfaceTxPowerByName kres requery p = 0 ↔
      ∃ info, requery = some info ∧ info.txdBm = p) ∧
    (setInterfaceTxPowerByName kres requery p = 0 ∨
      setInterfaceTxPowerByName kres requery p = -1) := by
  have h1 : (2 : Int) ^ 31 = 2147483648 := by norm_num
  have h2 : (2 : Int) ^ 32 = 4294967296 := by norm_num
  have hwrap : wrap32 (p * 100) = p * 100 := by
    unfold wrap32
    rw [h1, h2] at *
    omega
  refine ⟨by simp [setTxPowerHandler, hwrap], ?_, ?_⟩
  · constructor
    · intro h0
      cases hq : requery with
      | none => rw [hq] at h0; simp [setInterfaceTxPowerByName] at h0
      | some info =>
        refine ⟨info, rfl, ?_⟩
        rw [hq] at h0
        by_cases hp : p = info.txdBm
        · exact hp.symm
        · simp [setInterfaceTxPowerByName, hp] at h0
    · rintro ⟨info, hq, ht⟩
      rw [hq]
      simp [setInterfaceTxPowerByName, ht]
  · cases hq : requery with
    | none => right; rfl
    | some info =>
      by_cases hp : p = info.txdBm
      · left; simp [setInterfaceTxPowerByName, hp]
      · right; simp [setInterfaceTxPowerByName, hp]

/-- Witness for C7 at the spec's concrete scenario: requested power -5 dBm
yields a power-level attribute of -500, and a re-query reporting -5 yields
success (0). -/
theorem setInterfaceTxPower_verification_witness :
    setTxPowerHandler (-5) [] =
      [] ++ [(NlAttrId.wiphyTxPowerSetting, NL80211_TX_POWER_FIXED),
             (NlAttrId.wiphyTxPowerLevel, (-5) * 100)] ∧
    setInterfaceTxPowerByName 3 (some ⟨"mon0", 6, 7, 0, 0, "", 5180, -5⟩) (-5) = 0 :=
  ⟨(setInterfaceTxPower_verification (-5) (some ⟨"mon0", 6, 7, 0, 0, "", 5180, -5⟩) 3 []
      (by norm_num) (by norm_num)).1,
   (setInterfaceTxPower_verification (-5) (some ⟨"mon0", 6, 7, 0, 0, "", 5180, -5⟩) 3 []
      (by norm_num) (by norm_num)).2.1.mpr ⟨⟨"mon0", 6, 7, 0, 0, "", 5180, -5⟩, rfl, rfl⟩⟩

/-! ## C8: interface-enumeration decoder -/

/-- **C8 (counterexample).**  A reply whose interface-index attribute
carries the value 0 is appended to the collection and finalizes to a record
with interface index 0 even though the reply DID supply an index attribute,
refuting "a finalized record has interface index 0 only when the kernel
reply supplied no index attribute". -/
theorem getInterfaceInfoHandler_index0_counterexample :
    (({ ifindex := some 0 } : GetIfaceReply).ifindex.isSome = true) ∧
    getInterfaceInfoHandler { ifindex := some 0 } [] =
      [builderOfReply { ifindex := some 0 }] ∧
    ((builderOfReply { ifindex := some 0 }).build).ifIndex = 0 :=
  ⟨rfl, rfl, rfl⟩

/-- **C8 (amended).**  A builder is appended iff the reply carried an
interface-index attribute, so every builder in the collection has an index;
replies without the attribute add nothing; and an appended builder
finalizes to a record whose interface index is exactly the attribute's
value — index 0 therefore occurs only when the attribute was absent or
itself carried 0. -/
theorem getInterfaceInfoHandler_spec (r : GetIfaceReply)
    (builders : List InterfaceInfoBuilder) :
    (r.ifindex.isSome = true →
      getInterfaceInfoHandler r builders = builders ++ [builderOfReply r]) ∧
    (r.ifindex = none → getInterfaceInfoHandler r builders = builders) ∧
    (∀ b ∈ getInterfaceInfoHandler r builders, b ∈ builders ∨ b.interfaceIndex.isSome = true) ∧
    (∀ idx, r.ifindex = some idx →
      (builderOfReply r).interfaceIndex = some idx ∧
      ((builderOfReply r).build).ifIndex = idx) := by
  refine ⟨?_, ?_, ?_, ?_⟩
  · intro h
    cases hr : r.ifindex with
    | none => rw [hr] at h; simp at h
    | some idx => simp [getInterfaceInfoHandler, hr]
  · intro h
    simp [getInterfaceInfoHandler, h]
  · intro b hb
    cases hr : r.ifindex with
    | none =>
      left
      simpa [getInterfaceInfoHandler, hr] using hb
    | some idx =>
      simp only [getInterfaceInfoHandler, hr, List.mem_append, List.mem_singleton] at hb
      rcases hb with hb | hb
      · exact Or.inl hb
      · right
        rw [hb]
        simp [builderOfReply, hr]
  · intro idx h
    constructor
    · simp [builderOfReply, h]
    · simp [builderOfReply, InterfaceInfoBuilder.build, h]

/-- Witness for the amended C8 theorem at a concrete reply carrying index 7. -/
theorem getInterfaceInfoHandler_spec_witness :
    getInterfaceInfoHandler { ifindex := some 7 } [] =
      [] ++ [builderOfReply { ifindex := some 7 }] ∧
    ((builderOfReply { ifindex := some 7 }).build).ifIndex = 7 :=
  ⟨(getInterfaceInfoHandler_spec { ifindex := some 7 } []).1 rfl,
   ((getInterfaceInfoHandler_spec { ifindex := some 7 } []).2.2.2 7 rfl).2⟩

/-! ## C10: setInterfaceTxPower (by index) -/

/-- **C10.**  The two-argument (index) overload verifies success by
dereferencing the re-query result without an absence check: when a record
comes back it returns 0 iff its `txdBm` equals the requested power and -1
otherwise; when no record comes back the `.value()` dereference of the
absent optional is reached (no handled failure path). -/
theorem setInterfaceTxPowerByIndex_spec (kres : Int) (requery : Option InterfaceInfo)
    (p : Int) :
    (∀ info, requery = some info →
      setInterfaceTxPowerByIndex kres requery p =
        Except.ok (if p = info.txdBm then 0 else -1) ∧
      (setInterfaceTxPowerByIndex kres requery p = Except.ok 0 ↔ info.txdBm = p)) ∧
    (requery = none →
      setInterfaceTxPowerByIndex kres requery p = Except.error ("bad optional access")) := by
  refine ⟨?_, ?_⟩
  · intro info h
    subst h
    refine ⟨rfl, ?_⟩
    by_cases hp : p = info.txdBm
    · simp [setInterfaceTxPowerByIndex, hp]
    · constructor
      · intro h0
        simp [setInterfaceTxPowerByIndex, hp] at h0
      · intro ht
        exact absurd ht.symm hp
  · intro h
    subst h
    rfl

/-- Witness for C10: a present re-query with matching power gives `ok 0`;
an absent one raises the modelled `bad_optional_access`. -/
theorem setInterfaceTxPowerByIndex_spec_witness :
    setInterfaceTxPowerByIndex 0 (some ⟨"mon0", 6, 7, 0, 0, "", 5180, -5⟩) (-5) =
      Except.ok (if (-5 : Int) = ((⟨"mon0", 6, 7, 0, 0, "", 5180, -5⟩ : InterfaceInfo)).txdBm
                 then 0 else -1) ∧
    setInterfaceTxPowerByIndex 0 none (-5) = Except.error ("bad optional access") :=
  ⟨((setInterfaceTxPowerByIndex_spec 0 (some ⟨"mon0", 6, 7, 0, 0, "", 5180, -5⟩) (-5)).1
      ⟨"mon0", 6, 7, 0, 0, "", 5180, -5⟩ rfl).1,
   (setInterfaceTxPowerByIndex_spec 0 none (-5)).2 rfl⟩

/-! ## C9: interface directory -/

theorem lookupDir_insertDir_self (d : List (String × InterfaceInfo)) (k : String)
    (v : InterfaceInfo) : lookupDir (insertDir d k v) k = some v := by
  induction d with
  | nil => simp [insertDir, lookupDir]
  | cons kv rest ih =>
    obtain ⟨k0, v0⟩ := kv
    by_cases h : k0 = k
    · simp [insertDir, lookupDir, h]
    · simpa [insertDir, lookupDir, h] using ih

theorem lookupDir_insertDir_other (d : List (String × InterfaceInfo)) (k : String)
    (v : InterfaceInfo) (n : String) (h : n ≠ k) :
    lookupDir (insertDir d k v) n = lookupDir d n := by
  have hkn : ¬ (k = n) := fun hh => h hh.symm
  induction d with
  | nil => simp [insertDir, lookupDir, hkn]
  | cons kv rest ih =>
    obtain ⟨k0, v0⟩ := kv
    by_cases hk : k0 = k
    · subst hk
      simp [insertDir, lookupDir, hkn]
    · by_cases hn : k0 = n
      · subst hn
        simp [insertDir, lookupDir, hk]
      · simpa [insertDir, lookupDir, hk, hn] using ih

theorem lookupDir_foldl_insert_not_mem (recs : List InterfaceInfo) :
    ∀ (d : List (String × InterfaceInfo)) (n : String),
      (∀ r ∈ recs, r.ifName ≠ n) →
      lookupDir (recs.foldl (fun acc r => insertDir acc r.ifName r) d) n = lookupDir d n := by
  induction recs with
  | nil => intro d n _; rfl
  | cons r rest ih =>
    intro d n h
    have hr : r.ifName ≠ n := h r (List.mem_cons_self r rest)
    calc lookupDir ((r :: rest).foldl (fun acc x => insertDir acc x.ifName x) d) n
        = lookupDir (insertDir d r.ifName r) n :=
          ih (insertDir d r.ifName r) n (fun x hx => h x (List.mem_cons_of_mem r hx))
      _ = lookupDir d n := lookupDir_insertDir_other d r.ifName r n (fun hh => hr hh.symm)

theorem lookupDir_foldl_insert_mem (recs : List InterfaceInfo) :
    ∀ d : List (String × InterfaceInfo),
      (recs.map (fun i => i.ifName)).Nodup →
      ∀ info ∈ recs,
        lookupDir (recs.foldl (fun acc r => insertDir acc r.ifName r) d) info.ifName =
          some info := by
  induction recs with
  | nil => intro d _ info h; cases h
  | cons r rest ih =>
    intro d hnod info hinfo
    have hnod2 : (rest.map (fun i => i.ifName)).Nodup := (List.nodup_cons.mp hnod).2
    rcases List.mem_cons.mp hinfo with h | h
    · subst h
      have hnot : ∀ x ∈ rest, x.ifName ≠ info.ifName := by
        intro x hx heq
        exact (List.nodup_cons.mp hnod).1 (List.mem_map.mpr ⟨x, hx, heq⟩)
      calc lookupDir ((info :: rest).foldl (fun acc x => insertDir acc x.ifName x) d)
              info.ifName
          = lookupDir (insertDir d info.ifName info) info.ifName :=
            lookupDir_foldl_insert_not_mem rest (insertDir d info.ifName info)
              info.ifName hnot
        _ = some info := lookupDir_insertDir_self d info.ifName info
    · exact ih (insertDir d r.ifName r) hnod2 info h

theorem getInterfaceInfoByName_empty (replies : List GetIfaceReply)
    (txOracle : Nat → Option Int) (dir : List (String × InterfaceInfo))
    (hb : replies.foldl (fun bs r => getInterfaceInfoHandler r bs) [] = []) :
    getInterfaceInfoByName replies txOracle dir = (none, dir) := by
  unfold getInterfaceInfoByName
  rw [hb]

theorem getInterfaceInfoByName_first (replies : List GetIfaceReply)
    (txOracle : Nat → Option Int) (dir : List (String × InterfaceInfo))
    (b : InterfaceInfoBuilder) (bs : List InterfaceInfoBuilder)
    (hb : replies.foldl (fun acc r => getInterfaceInfoHandler r acc) [] = b :: bs) :
    getInterfaceInfoByName replies txOracle dir =
      (some ((applyTxQuery txOracle b).build),
       insertDir dir ((applyTxQuery txOracle b).build).ifName
         ((applyTxQuery txOracle b).build)) := by
  unfold getInterfaceInfoByName
  rw [hb]

/-- **C9 (counterexample).**  A by-index query can succeed — it returns a
record — while its own netlink exchange produced no finalized record at all
and the directory is left byte-for-byte unchanged: with no kernel replies
and a directory already holding "wlan0" at index 3, `getInterfaceInfo(3)`
returns that stored record.  No entry is created or overwritten by the
call, refuting the claim for the by-index query. -/
theorem getInterfaceInfoByIndex_no_write_counterexample :
    getInterfaceInfoByIndex [] 3 [("wlan0", ⟨"wlan0", 2, 3, 0, 0, "", 2412, 10⟩)] =
      Except.ok (some ⟨"wlan0", 2, 3, 0, 0, "", 2412, 10⟩,
                 [("wlan0", ⟨"wlan0", 2, 3, 0, 0, "", 2412, 10⟩)]) ∧
    producedRecords [] (fun _ => none) = [] :=
  ⟨rfl, rfl⟩

/-- **C9 (amended).**  `getAllInterfaces` and the by-name query store every
record they finalize in the directory under the record's name (creating or
overwriting the entry); the by-index query never writes — it returns the
first already-stored record carrying the requested index, its own kernel
replies being discarded — and `restoreState` clears the directory. -/
theorem interfaceDirectory_spec (replies : List GetIfaceReply)
    (txOracle : Nat → Option Int) (dir : List (String × InterfaceInfo))
    (interfaceIndex : Nat) :
    (((producedRecords replies txOracle).map (fun i => i.ifName)).Nodup →
      ∀ info ∈ producedRecords replies txOracle,
        lookupDir (getAllInterfaces replies txOracle dir) info.ifName = some info) ∧
    (∀ info dir2, getInterfaceInfoByName replies txOracle dir = (some info, dir2) →
      dir2 = insertDir dir info.ifName info ∧ lookupDir dir2 info.ifName = some info) ∧
    (∀ dir2, getInterfaceInfoByName replies txOracle dir = (none, dir2) → dir2 = dir) ∧
    (∀ res dir2,
      getInterfaceInfoByIndex replies interfaceIndex dir = Except.ok (res, dir2) →
      dir2 = dir ∧ ∀ info, res = some info →
        info.ifIndex = interfaceIndex ∧ ∃ k, (k, info) ∈ dir) ∧
    restoreStateInterfaces dir = [] := by
  refine ⟨?_, ?_, ?_, ?_, rfl⟩
  · intro hnod info hinfo
    exact lookupDir_foldl_insert_mem (producedRecords replies txOracle) dir hnod info hinfo
  · intro info dir2 h
    cases hb : replies.foldl (fun acc r => getInterfaceInfoHandler r acc) [] with
    | nil =>
      rw [getInterfaceInfoByName_empty replies txOracle dir hb] at h
      injection h with h1 h2
      cases h1
    | cons b bs =>
      rw [getInterfaceInfoByName_first replies txOracle dir b bs hb] at h
      injection h with h1 h2
      injection h1 with h1
      subst h1
      subst h2
      exact ⟨rfl, lookupDir_insertDir_self dir _ _⟩
  · intro dir2 h
    cases hb : replies.foldl (fun acc r => getInterfaceInfoHandler r acc) [] with
    | nil =>
      rw [getInterfaceInfoByName_empty replies txOracle dir hb] at h
      injection h with h1 h2
      exact h2.symm
    | cons b bs =>
      rw [getInterfaceInfoByName_first replies txOracle dir b bs hb] at h
      injection h with h1 h2
      cases h1
  · intro res dir2 h
    unfold getInterfaceInfoByIndex at h
    by_cases hcrash : replies.any (fun r => r.ifindex.isSome) = true
    · rw [if_pos hcrash] at h
      cases h
    · rw [if_neg hcrash] at h
      injection h with h
      injection h with h1 h2
      refine ⟨h2.symm, ?_⟩
      intro info hres
      rw [← h1] at hres
      obtain ⟨kv, hkv, hkv2⟩ := Option.map_eq_some'.mp hres
      have hfound := List.find?_some hkv
      simp only [decide_eq_true_eq] at hfound
      have hmem : kv ∈ dir := List.mem_of_find?_eq_some hkv
      subst hkv2
      exact ⟨hfound, ⟨kv.1, by simpa using hmem⟩⟩

/-- Witness for the amended C9 theorem: one reply named "wlan0" with index 3
and a tx-power dump reporting 1000 mBm stores the built record under
"wlan0". -/
theorem interfaceDirectory_spec_witness :
    getInterfaceInfoByName [{ ifname := some "wlan0", ifindex := some 3 }]
        (fun _ => some 1000) [] =
      (some ((applyTxQuery (fun _ => some 1000)
               (builderOfReply { ifname := some "wlan0", ifindex := some 3 })).build),
       insertDir []
         ((applyTxQuery (fun _ => some 1000)
            (builderOfReply { ifname := some "wlan0", ifindex := some 3 })).build).ifName
         ((applyTxQuery (fun _ => some 1000)
            (builderOfReply { ifname := some "wlan0", ifindex := some 3 })).build)) ∧
    lookupDir
      (insertDir []
        ((applyTxQuery (fun _ => some 1000)
           (builderOfReply { ifname := some "wlan0", ifindex := some 3 })).build).ifName
        ((applyTxQuery (fun _ => some 1000)
           (builderOfReply { ifname := some "wlan0", ifindex := some 3 })).build))
      ((applyTxQuery (fun _ => some 1000)
         (builderOfReply { ifname := some "wlan0", ifindex := some 3 })).build).ifName =
      some ((applyTxQuery (fun _ => some 1000)
              (builderOfReply { ifname := some "wlan0", ifindex := some 3 })).build) := by
  have h := (interfaceDirectory_spec [{ ifname := some "wlan0", ifindex := some 3 }]
    (fun _ => some 1000) [] 0).2.1
    ((applyTxQuery (fun _ => some 1000)
       (builderOfReply { ifname := some "wlan0", ifindex := some 3 })).build)
    (insertDir []
      ((applyTxQuery (fun _ => some 1000)
         (builderOfReply { ifname := some "wlan0", ifindex := some 3 })).build).ifName
      ((applyTxQuery (fun _ => some 1000)
         (builderOfReply { ifname := some "wlan0", ifindex := some 3 })).build)) rfl
  exact ⟨rfl, h.2⟩

/-! ## C6: MAC text ↔ bytes -/

theorem hexval_hexDigitChar : ∀ n < 16, hexval (hexDigitChar n) = some n := by decide

theorem isSep_hexDigitChar : ∀ n < 16, isSep (hexDigitChar n) = false := by decide

theorem macHexDigits_cons_sep (c : Char) (l : List Char) (h : isSep c = true) :
    macHexDigits (c :: l) = macHexDigits l := by
  simp [macHexDigits, h]

theorem macHexDigits_cons_hex (c : Char) (l : List Char) (v : Nat) (h1 : isSep c = false)
    (h2 : hexval c = some v) : macHexDigits (c :: l) = v :: macHexDigits l := by
  simp [macHexDigits, h1, h2]

/-- Folding `a2nStep` over characters that are all separators or hex digits
is the same as pushing the hex digits through `pushDigits`. -/
theorem a2n_fold_good (l : List Char) :
    ∀ st : A2nState,
      (∀ c ∈ l, isSep c = true ∨ (hexval c).isSome = true) →
      l.foldlM a2nStep st = pushDigits st (macHexDigits l) := by
  induction l with
  | nil => intro st _; rfl
  | cons c rest ih =>
    intro st hgood
    have hrest : ∀ x ∈ rest, isSep x = true ∨ (hexval x).isSome = true :=
      fun x hx => hgood x (List.mem_cons_of_mem c hx)
    by_cases hsep : isSep c = true
    · have hstep : a2nStep st c = some st := by simp [a2nStep, hsep]
      rw [List.foldlM_cons, hstep, macHexDigits_cons_sep c rest hsep]
      simpa using ih st hrest
    · have hv0 : (hexval c).isSome = true :=
        (hgood c (List.mem_cons_self c rest)).resolve_left hsep
      obtain ⟨v, hv⟩ := Option.isSome_iff_exists.mp hv0
      have hsep2 : isSep c = false := by simpa using hsep
      have hdig := macHexDigits_cons_hex c rest v hsep2 hv
      cases hhi : st.hi with
      | none =>
        have hstep : a2nStep st c = some ⟨some v, st.bytes⟩ := by
          simp [a2nStep, hsep, hv, hhi]
        have hpush : pushDigits st (v :: macHexDigits rest) =
            pushDigits ⟨some v, st.bytes⟩ (macHexDigits rest) := by
          rw [pushDigits, hhi]
        rw [List.foldlM_cons, hstep, hdig, hpush]
        simpa using ih ⟨some v, st.bytes⟩ hrest
      | some h0 =>
        by_cases hlen : 6 ≤ st.bytes.length
        · have hstep : a2nStep st c = none := by
            simp [a2nStep, hsep, hv, hhi, hlen]
          have hpush : pushDigits st (v :: macHexDigits rest) = none := by
            rw [pushDigits, hhi]
            simp [hlen]
          rw [List.foldlM_cons, hstep, hdig, hpush]
          rfl
        · have hstep : a2nStep st c = some ⟨none, st.bytes ++ [h0 * 16 + v]⟩ := by
            simp [a2nStep, hsep, hv, hhi, hlen]
          have hpush : pushDigits st (v :: macHexDigits rest) =
              pushDigits ⟨none, st.bytes ++ [h0 * 16 + v]⟩ (macHexDigits rest) := by
            rw [pushDigits, hhi]
            simp [hlen]
          rw [List.foldlM_cons, hstep, hdig, hpush]
          simpa using ih ⟨none, st.bytes ++ [h0 * 16 + v]⟩ hrest

/-- A character that is neither a separator nor a hex digit makes the fold
fail (`return false`). -/
theorem a2n_fold_bad (l : List Char) :
    ∀ st : A2nState, (∃ c ∈ l, isSep c = false ∧ hexval c = none) →
      l.foldlM a2nStep st = none := by
  induction l with
  | nil =>
    intro st h
    obtain ⟨c, hc, _⟩ := h
    cases hc
  | cons c rest ih =>
    intro st h
    rw [List.foldlM_cons]
    rcases h with ⟨x, hx, hxsep, hxhex⟩
    rcases List.mem_cons.mp hx with hh | hh
    · subst hh
      have hstep : a2nStep st x = none := by simp [a2nStep, hxsep, hxhex]
      rw [hstep]
      rfl
    · cases hstep : a2nStep st c with
      | none => rfl
      | some st2 => simpa using ih st2 ⟨x, hh, hxsep, hxhex⟩

/-- Digit conservation: a successful `pushDigits` run accounts for every
input digit, two per byte plus one for a pending high nibble. -/
theorem pushDigits_count (ds : List Nat) :
    ∀ st st2 : A2nState, pushDigits st ds = some st2 →
      2 * st2.bytes.length + (if st2.hi.isSome then 1 else 0) =
        2 * st.bytes.length + (if st.hi.isSome then 1 else 0) + ds.length := by
  induction ds with
  | nil =>
    intro st st2 h
    injection h with h
    subst h
    simp
  | cons d ds ih =>
    intro st st2 h
    cases hhi : st.hi with
    | none =>
      rw [pushDigits, hhi] at h
      have hc := ih _ _ h
      simp only [hhi, Option.isSome_none, Option.isSome_some] at hc ⊢
      simp at hc
      simp
      omega
    | some h0 =>
      rw [pushDigits, hhi] at h
      by_cases hlen : 6 ≤ st.bytes.length
      · simp [hlen] at h
      · simp only [hlen, if_false] at h
        have hc := ih _ _ h
        simp only [hhi, Option.isSome_none, Option.isSome_some] at hc ⊢
        simp [List.length_append] at hc
        simp
        omega

/-- An even digit list that fits produces exactly its pairs. -/
theorem pushDigits_success (n : Nat) :
    ∀ (ds bs : List Nat), ds.length = 2 * n → bs.length + n ≤ 6 →
      ∃ bs2, pushDigits ⟨none, bs⟩ ds = some ⟨none, bs2⟩ ∧
        bs2.length = bs.length + n := by
  induction n with
  | zero =>
    intro ds bs hlen _
    have hnil : ds = [] := List.length_eq_zero.mp (by omega)
    subst hnil
    exact ⟨bs, rfl, by omega⟩
  | succ n ih =>
    intro ds bs hlen hle
    cases ds with
    | nil => simp at hlen
    | cons d1 tl1 =>
      cases tl1 with
      | nil => simp at hlen; omega
      | cons d2 tl2 =>
        have htl : tl2.length = 2 * n := by
          simp at hlen
          omega
        have h1 : pushDigits ⟨none, bs⟩ (d1 :: d2 :: tl2) =
            pushDigits ⟨some d1, bs⟩ (d2 :: tl2) := by
          rw [pushDigits]
        have h2 : pushDigits ⟨some d1, bs⟩ (d2 :: tl2) =
            pushDigits ⟨none, bs ++ [d1 * 16 + d2]⟩ tl2 := by
          rw [pushDigits]
          show (if 6 ≤ bs.length then none
                else pushDigits ⟨none, bs ++ [d1 * 16 + d2]⟩ tl2) = _
          rw [if_neg (by omega)]
        obtain ⟨bs2, hp, hl⟩ := ih tl2 (bs ++ [d1 * 16 + d2]) htl
          (by simp; omega)
        refine ⟨bs2, ?_, ?_⟩
        · rw [h1, h2]
          exact hp
        · simp at hl
          omega

theorem macHexDigits_byteHex (b : Nat) (l : List Char) (hb : b < 256) :
    macHexDigits (byteHex b ++ l) = b / 16 :: b % 16 :: macHexDigits l := by
  show macHexDigits (hexDigitChar (b / 16) :: hexDigitChar (b % 16) :: l) = _
  rw [macHexDigits_cons_hex _ _ (b / 16) (isSep_hexDigitChar (b / 16) (by omega))
      (hexval_hexDigitChar (b / 16) (by omega)),
    macHexDigits_cons_hex _ _ (b % 16) (isSep_hexDigitChar (b % 16) (by omega))
      (hexval_hexDigitChar (b % 16) (by omega))]

theorem macHexDigits_colonBlocks (rest : List Nat) (hb : ∀ b ∈ rest, b < 256) :
    macHexDigits (rest.flatMap (fun x => ':' :: byteHex x)) =
      rest.flatMap (fun b => [b / 16, b % 16]) := by
  induction rest with
  | nil => rfl
  | cons r tl ih =>
    have hr : r < 256 := hb r (List.mem_cons_self r tl)
    have htl : ∀ b ∈ tl, b < 256 := fun b h => hb b (List.mem_cons_of_mem r h)
    simp only [List.flatMap_cons]
    show macHexDigits (':' :: (byteHex r ++ tl.flatMap (fun x => ':' :: byteHex x))) = _
    rw [macHexDigits_cons_sep ':' _ rfl, macHexDigits_byteHex r _ hr, ih htl]
    rfl

theorem macHexDigits_n2a (bytes : List Nat) (hb : ∀ b ∈ bytes, b < 256) :
    macHexDigits (mac_n2a bytes).data = bytes.flatMap (fun b => [b / 16, b % 16]) := by
  cases bytes with
  | nil => rfl
  | cons b rest =>
    have hbb : b < 256 := hb b (List.mem_cons_self b rest)
    have hrest : ∀ x ∈ rest, x < 256 := fun x h => hb x (List.mem_cons_of_mem b h)
    show macHexDigits (byteHex b ++ rest.flatMap (fun x => ':' :: byteHex x)) = _
    rw [macHexDigits_byteHex b _ hbb, macHexDigits_colonBlocks rest hrest]
    rfl

theorem mac_n2a_good (bytes : List Nat) (hb : ∀ b ∈ bytes, b < 256) :
    ∀ c ∈ (mac_n2a bytes).data, isSep c = true ∨ (hexval c).isSome = true := by
  have hhex : ∀ b, b < 256 → ∀ c ∈ byteHex b, (hexval c).isSome = true := by
    intro b hbb c hc
    rcases List.mem_cons.mp hc with h | h
    · rw [h, hexval_hexDigitChar (b / 16) (by omega)]
      rfl
    · rcases List.mem_cons.mp h with h2 | h2
      · rw [h2, hexval_hexDigitChar (b % 16) (by omega)]
        rfl
      · cases h2
  cases bytes with
  | nil => intro c hc; cases hc
  | cons b rest =>
    intro c hc
    have hbb : b < 256 := hb b (List.mem_cons_self b rest)
    rcases List.mem_append.mp hc with h | h
    · exact Or.inr (hhex b hbb c h)
    · obtain ⟨x, hx, hcx⟩ := List.mem_flatMap.mp h
      rcases List.mem_cons.mp hcx with h2 | h2
      · subst h2
        exact Or.inl rfl
      · exact Or.inr (hhex x (hb x (List.mem_cons_of_mem b hx)) c h2)

theorem pushDigits_pairs (prs : List (Nat × Nat)) :
    ∀ bs : List Nat, bs.length + prs.length ≤ 6 →
      pushDigits ⟨none, bs⟩ (prs.flatMap (fun pr => [pr.1, pr.2])) =
        some ⟨none, bs ++ prs.map (fun pr => pr.1 * 16 + pr.2)⟩ := by
  induction prs with
  | nil => intro bs _; simp [pushDigits]
  | cons pr tl ih =>
    intro bs hle
    obtain ⟨d1, d2⟩ := pr
    have hle2 : bs.length + tl.length + 1 ≤ 6 := by simp at hle; omega
    have h1 : pushDigits ⟨none, bs⟩ (d1 :: d2 :: tl.flatMap (fun pr => [pr.1, pr.2])) =
        pushDigits ⟨some d1, bs⟩ (d2 :: tl.flatMap (fun pr => [pr.1, pr.2])) := by
      rw [pushDigits]
    have h2 : pushDigits ⟨some d1, bs⟩ (d2 :: tl.flatMap (fun pr => [pr.1, pr.2])) =
        pushDigits ⟨none, bs ++ [d1 * 16 + d2]⟩ (tl.flatMap (fun pr => [pr.1, pr.2])) := by
      rw [pushDigits]
      show (if 6 ≤ bs.length then none
            else pushDigits ⟨none, bs ++ [d1 * 16 + d2]⟩
              (tl.flatMap (fun pr => [pr.1, pr.2]))) = _
      rw [if_neg (by omega)]
    simp only [List.flatMap_cons]
    show pushDigits ⟨none, bs⟩ (d1 :: d2 :: tl.flatMap (fun pr => [pr.1, pr.2])) = _
    rw [h1, h2, ih (bs ++ [d1 * 16 + d2]) (by simp; omega)]
    simp

theorem map_nibbles_id (l : List Nat) : l.map (fun b => b / 16 * 16 + b % 16) = l := by
  induction l with
  | nil => rfl
  | cons b tl ih =>
    simp only [List.map_cons, ih, List.cons.injEq]
    exact ⟨by omega, trivial⟩

theorem flatMap_nibbles_pairs (l : List Nat) :
    l.flatMap (fun b => [b / 16, b % 16]) =
      (l.map (fun b => (b / 16, b % 16))).flatMap (fun pr => [pr.1, pr.2]) := by
  induction l with
  | nil => rfl
  | cons b tl ih => simp [ih]

/-- **C6.**  (1) Encoding any 6 bytes with `mac_n2a` and decoding with
`mac_a2n` returns the original bytes; (2) any string containing a non-hex,
non-separator character is rejected; (3) any string whose hex digits do not
number exactly 12 (6 bytes) is rejected; (4) any string of hex digits and
arbitrary interspersed separators (':', '-', space, tab) with exactly 12
hex digits is accepted, producing 6 bytes. -/
theorem mac_roundtrip_spec :
    (∀ bytes : List Nat, bytes.length = 6 → (∀ b ∈ bytes, b < 256) →
      mac_a2n (mac_n2a bytes) = some bytes) ∧
    (∀ s : String, (∃ c ∈ s.data, isSep c = false ∧ hexval c = none) →
      mac_a2n s = none) ∧
    (∀ s : String, (macHexDigits s.data).length ≠ 12 → mac_a2n s = none) ∧
    (∀ s : String, (∀ c ∈ s.data, isSep c = true ∨ (hexval c).isSome = true) →
      (macHexDigits s.data).length = 12 →
      ∃ bs, mac_a2n s = some bs ∧ bs.length = 6) := by
  refine ⟨?_, ?_, ?_, ?_⟩
  · intro bytes h6 hb
    have hgood := mac_n2a_good bytes hb
    have hfold := a2n_fold_good (mac_n2a bytes).data ⟨none, []⟩ hgood
    rw [macHexDigits_n2a bytes hb, flatMap_nibbles_pairs bytes,
      pushDigits_pairs (bytes.map fun b => (b / 16, b % 16)) []
        (by simp [h6])] at hfold
    have hmap : (bytes.map (fun b => (b / 16, b % 16))).map
        (fun pr => pr.1 * 16 + pr.2) = bytes := by
      rw [List.map_map]
      exact map_nibbles_id bytes
    rw [hmap] at hfold
    unfold mac_a2n
    rw [hfold]
    show (if (⟨none, [] ++ bytes⟩ : A2nState).hi = none ∧
          (⟨none, [] ++ bytes⟩ : A2nState).bytes.length = 6
        then some (⟨none, [] ++ bytes⟩ : A2nState).bytes else none) = some bytes
    rw [if_pos ⟨rfl, by simp [h6]⟩]
    simp
  · intro s hbad
    unfold mac_a2n
    rw [a2n_fold_bad s.data ⟨none, []⟩ hbad]
  · intro s hne
    by_cases hbad : ∃ c ∈ s.data, isSep c = false ∧ hexval c = none
    · unfold mac_a2n
      rw [a2n_fold_bad s.data ⟨none, []⟩ hbad]
    · have hgood : ∀ c ∈ s.data, isSep c = true ∨ (hexval c).isSome = true := by
        intro c hc
        by_cases hs : isSep c = true
        · exact Or.inl hs
        · right
          cases hh : hexval c with
          | none =>
            exact absurd ⟨c, hc, by simpa using hs, hh⟩ hbad
          | some v => rfl
      unfold mac_a2n
      rw [a2n_fold_good s.data ⟨none, []⟩ hgood]
      cases hpd : pushDigits ⟨none, []⟩ (macHexDigits s.data) with
      | none => rfl
      | some st =>
        have hcount := pushDigits_count (macHexDigits s.data) _ _ hpd
        by_cases hcond : st.hi = none ∧ st.bytes.length = 6
        · exfalso
          obtain ⟨hh, hl⟩ := hcond
          simp [hh, hl] at hcount
          omega
        · show (if st.hi = none ∧ st.bytes.length = 6 then some st.bytes else none) = none
          rw [if_neg hcond]
  · intro s hgood h12
    unfold mac_a2n
    rw [a2n_fold_good s.data ⟨none, []⟩ hgood]
    obtain ⟨bs2, hp, hl⟩ := pushDigits_success 6 (macHexDigits s.data) []
      (by omega) (by simp)
    rw [hp]
    have hl6 : bs2.length = 6 := by simpa using hl
    refine ⟨bs2, ?_, hl6⟩
    show (if (⟨none, bs2⟩ : A2nState).hi = none ∧
          (⟨none, bs2⟩ : A2nState).bytes.length = 6
        then some (⟨none, bs2⟩ : A2nState).bytes else none) = some bs2
    rw [if_pos ⟨rfl, hl6⟩]

/-- Witness for C6 at a concrete MAC: the round-trip on 00:11:ab:cd:ef:ff. -/
theorem mac_roundtrip_spec_witness :
    mac_a2n (mac_n2a [0, 17, 171, 205, 239, 255]) =
      some [0, 17, 171, 205, 239, 255] :=
  mac_roundtrip_spec.1 [0, 17, 171, 205, 239, 255] (by decide) (by decide)

/-! ## C1: nlExecCommand error/ack semantics -/

theorem coerceKernelCode_neg (e : Int) (he : e ≠ 0) : coerceKernelCode e < 0 := by
  simp only [coerceKernelCode, EPROTO]
  split_ifs <;> omega

theorem processBatch_data (isDump : Bool) (st : Int) (rest : List NlMsg) :
    processBatch isDump st (NlMsg.data :: rest) = processBatch isDump st rest := by
  simp only [processBatch]

theorem processBatch_finish (isDump : Bool) (st : Int) (rest : List NlMsg) :
    processBatch isDump st (NlMsg.finish :: rest) = processBatch isDump 0 rest := by
  simp only [processBatch]

theorem processBatch_ack_dump (st : Int) (rest : List NlMsg) :
    processBatch true st (NlMsg.kerror 0 :: rest) = processBatch true st rest := by
  simp only [processBatch]
  simp

theorem processBatch_ack_nondump (st : Int) (rest : List NlMsg) :
    processBatch false st (NlMsg.kerror 0 :: rest) = (0, 0) := by
  simp only [processBatch]
  simp

theorem processBatch_err (isDump : Bool) (st e : Int) (rest : List NlMsg) (he : e ≠ 0) :
    processBatch isDump st (NlMsg.kerror e :: rest) = (coerceKernelCode e, -16) := by
  simp only [processBatch]
  simp [he]

theorem batchTrace_data (isDump : Bool) (rest : List NlMsg) :
    batchTrace isDump (NlMsg.data :: rest) = NlMsg.data :: batchTrace isDump rest := by
  simp only [batchTrace]

theorem batchTrace_finish (isDump : Bool) (rest : List NlMsg) :
    batchTrace isDump (NlMsg.finish :: rest) = NlMsg.finish :: batchTrace isDump rest := by
  simp only [batchTrace]

theorem batchTrace_ack_dump (rest : List NlMsg) :
    batchTrace true (NlMsg.kerror 0 :: rest) = NlMsg.kerror 0 :: batchTrace true rest := by
  simp only [batchTrace]
  simp

theorem batchTrace_ack_nondump (rest : List NlMsg) :
    batchTrace false (NlMsg.kerror 0 :: rest) = [NlMsg.kerror 0] := by
  simp only [batchTrace]
  simp

theorem batchTrace_err (isDump : Bool) (e : Int) (rest : List NlMsg) (he : e ≠ 0) :
    batchTrace isDump (NlMsg.kerror e :: rest) = [NlMsg.kerror e] := by
  simp only [batchTrace]
  simp [he]

/-- A batch whose `nl_recvmsgs` result is negative dispatched exactly one
kernel error message, whose coerced code is the stored status. -/
theorem processBatch_neg (isDump : Bool) (msgs : List NlMsg) :
    ∀ st : Int, (processBatch isDump st msgs).2 < 0 →
      ∃ e : Int, e ≠ 0 ∧ (processBatch isDump st msgs).1 = coerceKernelCode e ∧
        NlMsg.kerror e ∈ batchTrace isDump msgs := by
  induction msgs with
  | nil => intro st h; simp [processBatch] at h
  | cons m rest ih =>
    intro st h
    cases m with
    | data =>
      rw [processBatch_data] at h ⊢
      rw [batchTrace_data]
      obtain ⟨e, he, h1, h2⟩ := ih st h
      exact ⟨e, he, h1, List.mem_cons_of_mem _ h2⟩
    | finish =>
      rw [processBatch_finish] at h ⊢
      rw [batchTrace_finish]
      obtain ⟨e, he, h1, h2⟩ := ih 0 h
      exact ⟨e, he, h1, List.mem_cons_of_mem _ h2⟩
    | kerror e0 =>
      by_cases he0 : e0 = 0
      · subst he0
        cases hD : isDump with
        | true =>
          try simp only [hD] at ih h
          rw [processBatch_ack_dump] at h ⊢
          rw [batchTrace_ack_dump]
          obtain ⟨e, he, h1, h2⟩ := ih st h
          exact ⟨e, he, h1, List.mem_cons_of_mem _ h2⟩
        | false =>
          try simp only [hD] at h
          rw [processBatch_ack_nondump] at h
          simp at h
      · rw [processBatch_err isDump st e0 rest he0] at h ⊢
        rw [batchTrace_err isDump e0 rest he0]
        exact ⟨e0, he0, rfl, List.mem_singleton.mpr rfl⟩

/-- Conversely: a dispatched kernel error message forces the negative
`nl_recvmsgs` result and the coerced status. -/
theorem processBatch_mem_err (isDump : Bool) (msgs : List NlMsg) :
    ∀ (st e : Int), e ≠ 0 → NlMsg.kerror e ∈ batchTrace isDump msgs →
      (processBatch isDump st msgs).2 < 0 ∧
      (processBatch isDump st msgs).1 = coerceKernelCode e := by
  induction msgs with
  | nil => intro st e _ h; simp [batchTrace] at h
  | cons m rest ih =>
    intro st e he h
    cases m with
    | data =>
      rw [batchTrace_data] at h
      rw [processBatch_data]
      rcases List.mem_cons.mp h with h2 | h2
      · cases h2
      · exact ih st e he h2
    | finish =>
      rw [batchTrace_finish] at h
      rw [processBatch_finish]
      rcases List.mem_cons.mp h with h2 | h2
      · cases h2
      · exact ih 0 e he h2
    | kerror e0 =>
      by_cases he0 : e0 = 0
      · subst he0
        cases hD : isDump with
        | true =>
          try simp only [hD] at ih h
          rw [batchTrace_ack_dump] at h
          rw [processBatch_ack_dump]
          rcases List.mem_cons.mp h with h2 | h2
          · injection h2 with h2
            exact absurd h2 he
          · exact ih st e he h2
        | false =>
          try simp only [hD] at h
          rw [batchTrace_ack_nondump] at h
          have h2 := List.mem_singleton.mp h
          injection h2 with h2
          exact absurd h2 he
      · rw [batchTrace_err isDump e0 rest he0] at h
        have h2 := List.mem_singleton.mp h
        injection h2 with h2
        subst h2
        rw [processBatch_err isDump st e rest he0]
        exact ⟨by norm_num, rfl⟩

/-- With a non-negative `nl_recvmsgs` result the status either survives or
was driven to 0. -/
theorem processBatch_st (isDump : Bool) (msgs : List NlMsg) :
    ∀ st : Int, 0 ≤ (processBatch isDump st msgs).2 →
      (processBatch isDump st msgs).1 = st ∨ (processBatch isDump st msgs).1 = 0 := by
  induction msgs with
  | nil => intro st _; exact Or.inl rfl
  | cons m rest ih =>
    intro st h
    cases m with
    | data =>
      rw [processBatch_data] at h ⊢
      exact ih st h
    | finish =>
      rw [processBatch_finish] at h ⊢
      rcases ih 0 h with h2 | h2 <;> exact Or.inr h2
    | kerror e0 =>
      by_cases he0 : e0 = 0
      · subst he0
        cases hD : isDump with
        | true =>
          try simp only [hD] at ih h
          rw [processBatch_ack_dump] at h ⊢
          exact ih st h
        | false =>
          try simp only [hD] at h
          rw [processBatch_ack_nondump]
          exact Or.inr rfl
      · rw [processBatch_err isDump st e0 rest he0] at h
        simp at h
  
/-- Driving the status to 0 inside one batch requires a finish marker, or an
ack with the ack handler registered (non-dump). -/
theorem processBatch_zero (isDump : Bool) (msgs : List NlMsg) :
    ∀ st : Int, 0 ≤ (processBatch isDump st msgs).2 →
      (processBatch isDump st msgs).1 = 0 → 0 < st →
      NlMsg.finish ∈ batchTrace isDump msgs ∨
        (isDump = false ∧ NlMsg.kerror 0 ∈ batchTrace isDump msgs) := by
  induction msgs with
  | nil =>
    intro st _ h0 hst
    simp only [processBatch] at h0
    omega
  | cons m rest ih =>
    intro st hres h0 hst
    cases m with
    | data =>
      rw [processBatch_data] at hres h0
      rw [batchTrace_data]
      rcases ih st hres h0 hst with h | ⟨h1, h2⟩
      · exact Or.inl (List.mem_cons_of_mem _ h)
      · exact Or.inr ⟨h1, List.mem_cons_of_mem _ h2⟩
    | finish =>
      rw [batchTrace_finish]
      exact Or.inl (List.mem_cons_self _ _)
    | kerror e0 =>
      by_cases he0 : e0 = 0
      · subst he0
        cases hD : isDump with
        | true =>
          try simp only [hD] at ih hres h0
          rw [processBatch_ack_dump] at hres h0
          rw [batchTrace_ack_dump]
          rcases ih st hres h0 hst with h | ⟨h1, h2⟩
          · exact Or.inl (List.mem_cons_of_mem _ h)
          · cases h1
        | false =>
          try simp only [hD] at hres h0
          rw [batchTrace_ack_nondump]
          exact Or.inr ⟨rfl, List.mem_singleton.mpr rfl⟩
      · rw [processBatch_err isDump st e0 rest he0] at hres
        simp at hres

theorem execLoop_cons_pos (isDump : Bool) (st lastRes : Int) (b : List NlMsg)
    (bs : List (List NlMsg)) (h : 0 < st) :
    execLoop isDump st lastRes (b :: bs) =
      if (processBatch isDump st b).2 < 0 then some (processBatch isDump st b)
      else execLoop isDump (processBatch isDump st b).1 (processBatch isDump st b).2 bs := by
  simp only [execLoop]
  rw [if_pos h]

theorem execLoop_cons_neg (isDump : Bool) (st lastRes : Int) (b : List NlMsg)
    (bs : List (List NlMsg)) (h : ¬ 0 < st) :
    execLoop isDump st lastRes (b :: bs) = some (st, lastRes) := by
  simp only [execLoop]
  rw [if_neg h]

theorem execTrace_cons_pos (isDump : Bool) (st : Int) (b : List NlMsg)
    (bs : List (List NlMsg)) (h : 0 < st) :
    execTrace isDump st (b :: bs) =
      batchTrace isDump b ++
        (if (processBatch isDump st b).2 < 0 then []
         else execTrace isDump (processBatch isDump st b).1 bs) := by
  simp only [execTrace]
  rw [if_pos h]

theorem execTrace_cons_neg (isDump : Bool) (st : Int) (b : List NlMsg)
    (bs : List (List NlMsg)) (h : ¬ 0 < st) :
    execTrace isDump st (b :: bs) = [] := by
  simp only [execTrace]
  rw [if_neg h]

/-- A dispatched kernel error determines the loop's final status. -/
theorem execLoop_err (isDump : Bool) (bs : List (List NlMsg)) :
    ∀ (st lastRes e : Int), e ≠ 0 → NlMsg.kerror e ∈ execTrace isDump st bs →
      ∃ res : Int, execLoop isDump st lastRes bs = some (coerceKernelCode e, res) := by
  induction bs with
  | nil =>
    intro st lastRes e _ hmem
    simp [execTrace] at hmem
  | cons b bs2 ih =>
    intro st lastRes e he hmem
    by_cases hst : 0 < st
    · rw [execTrace_cons_pos isDump st b bs2 hst] at hmem
      rw [execLoop_cons_pos isDump st lastRes b bs2 hst]
      rcases List.mem_append.mp hmem with hm | hm
      · obtain ⟨hneg, hval⟩ := processBatch_mem_err isDump b st e he hm
        rw [if_pos hneg]
        exact ⟨(processBatch isDump st b).2, by rw [← hval]⟩
      · by_cases hneg : (processBatch isDump st b).2 < 0
        · rw [if_pos hneg] at hm
          cases hm
        · rw [if_neg hneg] at hm
          rw [if_neg hneg]
          exact ih (processBatch isDump st b).1 (processBatch isDump st b).2 e he hm
    · rw [execTrace_cons_neg isDump st b bs2 hst] at hmem
      cases hmem

/-- Returning 0 requires a finish, or a non-dump ack, dispatched with the
status still "in progress". -/
theorem execLoop_zero (isDump : Bool) (bs : List (List NlMsg)) :
    ∀ (st lastRes st2 res : Int), execLoop isDump st lastRes bs = some (st2, res) →
      st2 = 0 → 0 < st →
      NlMsg.finish ∈ execTrace isDump st bs ∨
        (isDump = false ∧ NlMsg.kerror 0 ∈ execTrace isDump st bs) := by
  induction bs with
  | nil =>
    intro st lastRes st2 res h h0 hst
    simp only [execLoop] at h
    rw [if_pos hst] at h
    cases h
  | cons b bs2 ih =>
    intro st lastRes st2 res h h0 hst
    rw [execLoop_cons_pos isDump st lastRes b bs2 hst] at h
    rw [execTrace_cons_pos isDump st b bs2 hst]
    by_cases hneg : (processBatch isDump st b).2 < 0
    · rw [if_pos hneg] at h
      obtain ⟨e, he, hval, _⟩ := processBatch_neg isDump b st hneg
      injection h with h
      have h1 : (processBatch isDump st b).1 = st2 := congrArg Prod.fst h
      have h2 : coerceKernelCode e < 0 := coerceKernelCode_neg e he
      omega
    · rw [if_neg hneg] at h
      push_neg at hneg
      by_cases hst2 : 0 < (processBatch isDump st b).1
      · rcases ih (processBatch isDump st b).1 (processBatch isDump st b).2 st2 res h h0 hst2
          with hf | ⟨hd, hk⟩
        · refine Or.inl (List.mem_append.mpr (Or.inr ?_))
          rw [if_neg (by omega)]
          exact hf
        · refine Or.inr ⟨hd, List.mem_append.mpr (Or.inr ?_)⟩
          rw [if_neg (by omega)]
          exact hk
      · have hpres := processBatch_st isDump b st hneg
        have hp1 : (processBatch isDump st b).1 = 0 := by omega
        rcases processBatch_zero isDump b st hneg hp1 hst with hf | ⟨hd, hk⟩
        · exact Or.inl (List.mem_append.mpr (Or.inl hf))
        · exact Or.inr ⟨hd, List.mem_append.mpr (Or.inl hk)⟩

/-- If the last `nl_recvmsgs` result is non-negative when the loop returns,
the status was driven to 0 or below (the loop cannot return "in progress"). -/
theorem execLoop_some_nonneg (isDump : Bool) (bs : List (List NlMsg)) :
    ∀ (st lastRes st2 res : Int), 0 ≤ lastRes →
      execLoop isDump st lastRes bs = some (st2, res) → 0 ≤ res → st2 ≤ 0 := by
  induction bs with
  | nil =>
    intro st lastRes st2 res hlast h _
    simp only [execLoop] at h
    by_cases hst : 0 < st
    · rw [if_pos hst] at h
      cases h
    · rw [if_neg hst] at h
      injection h with h
      have h1 : st = st2 := congrArg Prod.fst h
      omega
  | cons b bs2 ih =>
    intro st lastRes st2 res hlast h hres
    by_cases hst : 0 < st
    · rw [execLoop_cons_pos isDump st lastRes b bs2 hst] at h
      by_cases hneg : (processBatch isDump st b).2 < 0
      · rw [if_pos hneg] at h
        injection h with h
        have h1 : (processBatch isDump st b).2 = res := congrArg Prod.snd h
        omega
      · rw [if_neg hneg] at h
        exact ih (processBatch isDump st b).1 (processBatch isDump st b).2 st2 res
          (by omega) h hres
    · rw [execLoop_cons_neg isDump st lastRes b bs2 hst] at h
      injection h with h
      have h1 : st = st2 := congrArg Prod.fst h
      omega

/-- **C1.**  For every exchange: if a kernel error message is dispatched,
`nlExecCommand` returns its code unchanged as a negative errno (a positive
code coerced to `-EPROTO`); and it returns 0 only when no kernel error was
dispatched and a finish marker, or an ack under the non-dump-only ack
handler, drove the status to success. -/
theorem nlExecCommand_error_and_ack (isDump : Bool) (batches : List (List NlMsg))
    (r : Int) (h : nlExecCommand isDump batches = some r) :
    (∀ e : Int, e ≠ 0 → NlMsg.kerror e ∈ execTrace isDump 1 batches →
      r = coerceKernelCode e) ∧
    (r = 0 →
      (∀ e : Int, e ≠ 0 → NlMsg.kerror e ∉ execTrace isDump 1 batches) ∧
      (NlMsg.finish ∈ execTrace isDump 1 batches ∨
        (isDump = false ∧ NlMsg.kerror 0 ∈ execTrace isDump 1 batches))) := by
  unfold nlExecCommand at h
  cases hloop : execLoop isDump 1 1 batches with
  | none => rw [hloop] at h; cases h
  | some p =>
    obtain ⟨st2, res⟩ := p
    rw [hloop] at h
    injection h with h
    constructor
    · intro e he hmem
      obtain ⟨res2, hl2⟩ := execLoop_err isDump batches 1 1 e he hmem
      rw [hloop] at hl2
      injection hl2 with hl2
      have h1 : st2 = coerceKernelCode e := congrArg Prod.fst hl2
      have h2 : coerceKernelCode e < 0 := coerceKernelCode_neg e he
      rw [← h, h1, if_pos (by omega)]
    · intro h0
      rw [← h] at h0
      have hst2 : ¬ st2 < 0 := by
        intro hlt
        rw [if_pos hlt] at h0
        omega
      have hresneg : ¬ res < 0 := by
        intro hlt
        rw [if_neg hst2, if_pos hlt] at h0
        omega
      have hle : st2 ≤ 0 := execLoop_some_nonneg isDump batches 1 1 st2 res
        (by norm_num) hloop (by omega)
      have hz : st2 = 0 := by omega
      constructor
      · intro e he hmem
        obtain ⟨res2, hl2⟩ := execLoop_err isDump batches 1 1 e he hmem
        rw [hloop] at hl2
        injection hl2 with hl2
        have h1 : st2 = coerceKernelCode e := congrArg Prod.fst hl2
        have h2 : coerceKernelCode e < 0 := coerceKernelCode_neg e he
        omega
      · exact execLoop_zero isDump batches 1 1 st2 res hloop hz (by norm_num)

/-- Witness for C1: an empty dump terminated by a finish marker returns 0,
with no error in the dispatched trace. -/
theorem nlExecCommand_error_and_ack_witness :
    (∀ e : Int, e ≠ 0 → NlMsg.kerror e ∈ execTrace true 1 [[NlMsg.data, NlMsg.finish]] →
      (0 : Int) = coerceKernelCode e) ∧
    ((0 : Int) = 0 →
      (∀ e : Int, e ≠ 0 → NlMsg.kerror e ∉ execTrace true 1 [[NlMsg.data, NlMsg.finish]]) ∧
      (NlMsg.finish ∈ execTrace true 1 [[NlMsg.data, NlMsg.finish]] ∨
        (true = false ∧ NlMsg.kerror 0 ∈ execTrace true 1 [[NlMsg.data, NlMsg.finish]]))) :=
  nlExecCommand_error_and_ack true [[NlMsg.data, NlMsg.finish]] 0 (by decide)
